import Mathlib

/-!
A verification development for the `RangeTree` repository (`src/RangeTree.h`).

The source is a C++ class template `RangeTree<T, K>`: a static, build-once
K-dimensional range tree over points `std::vector<T>`, with a separate
template specialization `RangeTree<T, 1>` as the base case.  We embed the
data model and the operations shallowly:

* `T` is instantiated with `Int` (the source only requires a totally
  ordered numeric type; the demo and tests use `int`/`double`).
* `std::vector<T>` becomes `List Int` (`Point`); `point[i]` becomes
  `coord p i`.
* throwing `std::invalid_argument` becomes returning `none`.
* `std::sort` with comparator `a[dim] < b[dim]` produces some permutation
  of the input that is non-decreasing on coordinate `dim`; the order among
  tied keys is unspecified by C++.  We realize it with
  `List.insertionSort` on `coord · dim ≤ coord · dim`, one admissible
  outcome.  No claim below depends on the order among tied keys.
* the compile-time recursion `RangeTree<T, K>` owning
  `RangeTree<T, K-1>` nodes becomes recursion on the natural number `K`.

Every node of the source stores a `canonical_subset`: a copy of the slice
`[begin, end)` of the sorted array, i.e. exactly the in-order point list
of the node's subtree.  It is read only to build `next_level_tree` (and by
the dead helper `collectPoints`), so the embedding passes the slice
directly to the associated-tree construction instead of storing the copy.
The helpers `findSplitNode` and `collectPoints` have no call sites in the
source and are not modelled.
-/

/-- A point: an ordered sequence of numeric coordinates
(`std::vector<T>` with `T := Int`). -/
abbrev Point : Type := List Int

/-- `coord p i` models the subscript `p[i]`.  Every subscript the source
performs is below the validated length, so the default is never reached
on validated data. -/
def coord (p : Point) (i : Nat) : Int := p.getD i 0

/-- The comparison under which `std::sort` leaves the array arranged at
level `dim`: non-decreasing on coordinate `dim`. -/
def leCoord (dim : Nat) (a b : Point) : Prop := coord a dim ≤ coord b dim

instance (dim : Nat) : DecidableRel (leCoord dim) := fun a b =>
  inferInstanceAs (Decidable (coord a dim ≤ coord b dim))

instance (dim : Nat) : IsTotal Point (leCoord dim) :=
  ⟨fun a b => le_total (coord a dim) (coord b dim)⟩

instance (dim : Nat) : IsTrans Point (leCoord dim) :=
  ⟨fun _ _ _ hab hbc => le_trans hab hbc⟩

/-- The sorting pass of the constructors: `std::sort(begin, end,
[dim](a, b){ return a[dim] < b[dim]; })`, realized as a sort that is
non-decreasing on coordinate `dim`. -/
def sortByCoord (dim : Nat) (ps : List Point) : List Point :=
  List.insertionSort (leCoord dim) ps

/-- The node structure shared by `RangeTree<T, K>::Node` and
`RangeTree<T, 1>::Node`: a point, owned left and right children, and (in
the generic template only) an optional `next_level_tree`.  `Node.nil`
models a null `unique_ptr<Node>`; `assoc = none` models a null
`next_level_tree` (the specialization has no such member, i.e. always
`none`).  The stored `canonical_subset` is omitted as explained above. -/
inductive Node : Type where
  | nil : Node
  | node (left : Node) (point : Point) (assoc : Option Node) (right : Node) : Node

/-- In-order point list of a (one-level) tree: exactly the sorted slice
the subtree was built from. -/
def Node.inorder : Node → List Point
  | .nil => []
  | .node l p _ r => l.inorder ++ p :: r.inorder

/-- Pre-order point list of a (one-level) tree: node, then left subtree,
then right subtree — the visitation order of `rangeSearchDim`. -/
def Node.preorder : Node → List Point
  | .nil => []
  | .node l p _ r => p :: (l.preorder ++ r.preorder)

/-- Height counted in nodes: an empty tree has height 0, a leaf height 1. -/
def Node.height : Node → Nat
  | .nil => 0
  | .node l _ _ r => max l.height r.height + 1

/-- The `next_level_tree` of the root node, if any. -/
def Node.assocRoot : Node → Option Node
  | .nil => none
  | .node _ _ a _ => a

/-- The point stored at the root node (`[]` for an empty tree). -/
def Node.rootPoint : Node → Point
  | .nil => []
  | .node _ p _ _ => p

/-- Induction over the left/right tree structure of one level (the
associated tree is carried along untouched, as in every query of the
source). -/
theorem Node.inductionOn {motive : Node → Prop} (nil : motive Node.nil)
    (node : ∀ l p a r, motive l → motive r → motive (Node.node l p a r)) :
    ∀ t, motive t
  | .nil => nil
  | .node l p a r =>
    node l p a r (Node.inductionOn nil node l) (Node.inductionOn nil node r)

namespace RangeTree

/-- `RangeTree<T, K>::buildTree(points, begin, end)`, fuel-indexed so that
it is structurally recursive (the fuel only needs to dominate the slice
length; `buildTree` below instantiates it).  The slice `[begin, end)` of
the sorted array is the list `ps`.  `asc` abstracts the construction of
`next_level_tree` from the node's canonical subset — the full slice — and
is instantiated by `construct` below; it is the identical closed function
at every node of one tree, exactly as `dimension` and `K` are fixed per
tree in the source. -/
def buildTreeAux (asc : List Point → Option Node) : Nat → List Point → Node
  | 0, _ => .nil
  | fuel + 1, ps =>
    if ps = [] then .nil
    else
      -- size_t mid = begin + (end - begin) / 2;
      Node.node (buildTreeAux asc fuel (ps.take (ps.length / 2)))
        (ps.getD (ps.length / 2) [])
        (asc ps)
        (buildTreeAux asc fuel (ps.drop (ps.length / 2 + 1)))

/-- `buildTree` on a whole sorted slice: the fuel `ps.length` always
suffices (`buildTreeAux_fuel` below). -/
def buildTree (asc : List Point → Option Node) (ps : List Point) : Node :=
  buildTreeAux asc ps.length ps

/-- The constructor bodies `RangeTree<T, K>::RangeTree(points, dim)` and
`RangeTree<T, 1>::RangeTree(points, dim)` after validation: sort a copy
of the points and build the root.  Dispatch on `K` models the template
specialization: `K = 1` is `RangeTree<T, 1>`, which sorts by `a[0] <
b[0]` ignoring `dim` and has no `next_level_tree`; any other `K` is the
generic template, which sorts by `a[dim] < b[dim]` and builds
`next_level_tree = RangeTree<T, K-1>(canonical_subset, dim + 1)` at every
node for which `dimension + 1 < K`.  Nested constructions revalidate with
their smaller `K`, which can never fail once the outermost validation
passed; that dead check is elided here. -/
def construct : Nat → Nat → List Point → Node
  | 0, dim, ps => buildTree (fun _ => none) (sortByCoord dim ps)
  | 1, _, ps => buildTree (fun _ => none) (sortByCoord 0 ps)
  | K + 2, dim, ps =>
    buildTree
      (fun slice =>
        if dim + 1 < K + 2 then some (construct (K + 1) (dim + 1) slice) else none)
      (sortByCoord dim ps)

/-- The public constructor `RangeTree<T, K>::RangeTree(points, dim)`:
an empty input returns an empty tree before validation; otherwise any
point with fewer than `K` coordinates throws `std::invalid_argument`
(modelled as `none`). -/
def new (K : Nat) (points : List Point) (dim : Nat) : Option Node :=
  if points = [] then some .nil
  else if points.any (fun p => decide (p.length < K)) then none
  else some (construct K dim points)

/-- `RangeTree<T, K>::isPointInRange(point, low, high)`: the point's
first `K` coordinates all lie in `[low[i], high[i]]` inclusive. -/
def isPointInRange (K : Nat) (p low high : Point) : Bool :=
  (List.range K).all fun i =>
    !(decide (coord p i < coord low i) || decide (coord high i < coord p i))

/-- `RangeTree<T, K>::rangeSearchDim(node, low, high, result)`: prune on
coordinate `dim` (the tree's recorded `dimension`); at an unpruned node
emit the point when its full first-`K`-coordinate check passes, then
recurse left, then right. -/
def rangeSearchDim (K dim : Nat) : Node → Point → Point → List Point
  | .nil, _, _ => []
  | .node l p _ r, low, high =>
    if coord p dim < coord low dim then rangeSearchDim K dim r low high
    else if coord high dim < coord p dim then rangeSearchDim K dim l low high
    else
      (if isPointInRange K p low high then [p] else []) ++
        (rangeSearchDim K dim l low high ++ rangeSearchDim K dim r low high)

/-- `RangeTree<T, K>::rangeSearch(low, high)`: length validation first
(throw, i.e. `none`), then the null-root check, then the traversal.
`rangeSearchDim` of `Node.nil` is `[]`, so the null-root early return is
subsumed. -/
def rangeSearch (K dim : Nat) (t : Node) (low high : Point) : Option (List Point) :=
  if low.length < K ∨ high.length < K then none
  else some (rangeSearchDim K dim t low high)

/-- `RangeTree<T, K>::search(point)`: length validation, then
`!rangeSearch(point, point).empty()`. -/
def search (K dim : Nat) (t : Node) (p : Point) : Option Bool :=
  if p.length < K then none
  else (rangeSearch K dim t p p).map fun res => !res.isEmpty

end RangeTree

namespace RangeTree1

/-- `RangeTree<T, 1>::rangeSearchDim(node, low, high, result)`: scalar
bounds, pruning on `point[0]`, and the point is pushed unconditionally
once both pruning tests fail (no further membership check). -/
def rangeSearchDim : Node → Int → Int → List Point
  | .nil, _, _ => []
  | .node l p _ r, low, high =>
    if coord p 0 < low then rangeSearchDim r low high
    else if high < coord p 0 then rangeSearchDim l low high
    else p :: (rangeSearchDim l low high ++ rangeSearchDim r low high)

/-- `RangeTree<T, 1>::rangeSearch(low, high)`: validate lengths, then
traverse with the scalar bounds `low[0]`, `high[0]`. -/
def rangeSearch (t : Node) (low high : Point) : Option (List Point) :=
  if low.length < 1 ∨ high.length < 1 then none
  else some (rangeSearchDim t (coord low 0) (coord high 0))

/-- `RangeTree<T, 1>::search(point)`: validate, then query the degenerate
range `[{point[0]}, {point[0]}]`. -/
def search (t : Node) (p : Point) : Option Bool :=
  if p.length < 1 then none
  else (rangeSearch t [coord p 0] [coord p 0]).map fun res => !res.isEmpty

end RangeTree1

/-- The ordering invariant claimed by the specification for a level-`dim`
node: left-subtree points strictly below the node's coordinate-`dim`
value, right-subtree points at or above it, recursively. -/
def strictBST (dim : Nat) : Node → Bool
  | .nil => true
  | .node l p _ r =>
    (l.inorder.all fun q => decide (coord q dim < coord p dim)) &&
      ((r.inorder.all fun q => decide (coord p dim ≤ coord q dim)) &&
        (strictBST dim l && strictBST dim r))

/-- The ordering invariant the construction actually guarantees: `≤` on
the left instead of `<`. -/
def looseBST (dim : Nat) : Node → Bool
  | .nil => true
  | .node l p _ r =>
    (l.inorder.all fun q => decide (coord q dim ≤ coord p dim)) &&
      ((r.inorder.all fun q => decide (coord p dim ≤ coord q dim)) &&
        (looseBST dim l && looseBST dim r))

/-- The specification's membership predicate, written from its words: the
first `K` coordinates of `q` lie within `[low, high]` inclusive on every
axis. -/
def memRange (K : Nat) (low high q : Point) : Prop :=
  ∀ i < K, coord low i ≤ coord q i ∧ coord q i ≤ coord high i

instance (K : Nat) (low high q : Point) : Decidable (memRange K low high q) :=
  inferInstanceAs (Decidable (∀ i < K, _ ∧ _))

/-! ### Basic properties of the construction -/

namespace RangeTree

theorem buildTreeAux_nil (asc : List Point → Option Node) (n : Nat) :
    buildTreeAux asc n [] = Node.nil := by
  cases n <;> simp [buildTreeAux]

theorem buildTreeAux_fuel (asc : List Point → Option Node) :
    ∀ n m (ps : List Point), ps.length ≤ n → ps.length ≤ m →
      buildTreeAux asc n ps = buildTreeAux asc m ps := by
  intro n
  induction n with
  | zero =>
    intro m ps hn _
    have : ps = [] := List.length_eq_zero.mp (Nat.le_zero.mp hn)
    subst this
    simp [buildTreeAux, buildTreeAux_nil]
  | succ n ih =>
    intro m ps hn hm
    by_cases h : ps = []
    · subst h
      simp [buildTreeAux_nil]
    · have hpos : 0 < ps.length := List.length_pos.mpr h
      obtain ⟨m', rfl⟩ : ∃ m', m = m' + 1 := ⟨m - 1, by omega⟩
      simp only [buildTreeAux, if_neg h]
      rw [ih m' (ps.take (ps.length / 2)) (by simp [List.length_take]; omega)
          (by simp [List.length_take]; omega),
        ih m' (ps.drop (ps.length / 2 + 1)) (by simp [List.length_drop]; omega)
          (by simp [List.length_drop]; omega)]

/-- The recursion equation of `buildTree`, exactly as in the source. -/
theorem buildTree_eq (asc : List Point → Option Node) (ps : List Point) :
    buildTree asc ps =
      if ps = [] then Node.nil
      else
        Node.node (buildTree asc (ps.take (ps.length / 2)))
          (ps.getD (ps.length / 2) [])
          (asc ps)
          (buildTree asc (ps.drop (ps.length / 2 + 1))) := by
  by_cases h : ps = []
  · subst h; simp [buildTree, buildTreeAux]
  · have hpos : 0 < ps.length := List.length_pos.mpr h
    obtain ⟨n, hn⟩ : ∃ n, ps.length = n + 1 := ⟨ps.length - 1, by omega⟩
    rw [if_neg h]
    show buildTreeAux asc ps.length ps = _
    calc buildTreeAux asc ps.length ps
        = buildTreeAux asc (n + 1) ps := by rw [hn]
      _ = Node.node (buildTreeAux asc n (ps.take (ps.length / 2)))
            (ps.getD (ps.length / 2) []) (asc ps)
            (buildTreeAux asc n (ps.drop (ps.length / 2 + 1))) := by
          simp only [buildTreeAux, if_neg h]
      _ = Node.node (buildTree asc (ps.take (ps.length / 2)))
            (ps.getD (ps.length / 2) []) (asc ps)
            (buildTree asc (ps.drop (ps.length / 2 + 1))) := by
          rw [buildTreeAux_fuel asc n (ps.take (ps.length / 2)).length
              (ps.take (ps.length / 2)) (by simp [List.length_take]; omega) le_rfl,
            buildTreeAux_fuel asc n (ps.drop (ps.length / 2 + 1)).length
              (ps.drop (ps.length / 2 + 1)) (by simp [List.length_drop]; omega) le_rfl]
          rfl

/-- The slice a node is built from decomposes as left slice, node point,
right slice. -/
theorem take_getElem_drop (ps : List Point) (h : ps.length / 2 < ps.length) :
    ps.take (ps.length / 2) ++ ps.getD (ps.length / 2) [] :: ps.drop (ps.length / 2 + 1) = ps := by
  rw [List.getD_eq_getElem?_getD, List.getElem?_eq_getElem h]
  conv_rhs => rw [← List.take_append_drop (ps.length / 2) ps]
  rw [List.drop_eq_getElem_cons h]
  rfl

/-- In-order traversal of the built tree returns exactly the slice it was
built from. -/
theorem inorder_buildTree (asc : List Point → Option Node) (ps : List Point) :
    (buildTree asc ps).inorder = ps := by
  rw [buildTree_eq]
  by_cases h : ps = []
  · simp [h, Node.inorder]
  · have hpos : 0 < ps.length := List.length_pos.mpr h
    have hmid : ps.length / 2 < ps.length := Nat.div_lt_self hpos (by omega)
    simp only [if_neg h, Node.inorder]
    rw [inorder_buildTree asc (ps.take (ps.length / 2)),
      inorder_buildTree asc (ps.drop (ps.length / 2 + 1))]
    exact take_getElem_drop ps hmid
termination_by ps.length
decreasing_by
  · simp [List.length_take]; omega
  · simp [List.length_drop]; omega

end RangeTree

namespace RangeTree

/-- Splitting of the `Pairwise` sort invariant at the median. -/
theorem pairwise_split (dim : Nat) (ps : List Point)
    (hmid : ps.length / 2 < ps.length) (hp : List.Pairwise (leCoord dim) ps) :
    (∀ q ∈ ps.take (ps.length / 2), leCoord dim q (ps.getD (ps.length / 2) [])) ∧
      (∀ q ∈ ps.drop (ps.length / 2 + 1), leCoord dim (ps.getD (ps.length / 2) []) q) ∧
      List.Pairwise (leCoord dim) (ps.take (ps.length / 2)) ∧
      List.Pairwise (leCoord dim) (ps.drop (ps.length / 2 + 1)) := by
  rw [← take_getElem_drop ps hmid] at hp
  obtain ⟨h₁, h₂, h₃⟩ := List.pairwise_append.mp hp
  obtain ⟨h₄, h₅⟩ := List.pairwise_cons.mp h₂
  exact ⟨fun q hq => h₃ q hq _ (List.mem_cons_self _ _), h₄, h₁, h₅⟩

/-- Median-split construction over an array that is non-decreasing on
coordinate `dim` yields, at every node, left-subtree values `≤` the
node's value and right-subtree values `≥` it. -/
theorem looseBST_buildTree (dim : Nat) (asc : List Point → Option Node)
    (ps : List Point) (hp : List.Pairwise (leCoord dim) ps) :
    looseBST dim (buildTree asc ps) = true := by
  rw [buildTree_eq]
  by_cases h : ps = []
  · simp [h, looseBST]
  · have hpos : 0 < ps.length := List.length_pos.mpr h
    have hmid : ps.length / 2 < ps.length := Nat.div_lt_self hpos (by omega)
    obtain ⟨hleft, hright, htake, hdrop⟩ := pairwise_split dim ps hmid hp
    simp only [if_neg h, looseBST, Bool.and_eq_true, List.all_eq_true,
      inorder_buildTree, decide_eq_true_eq]
    exact ⟨fun q hq => hleft q hq, fun q hq => hright q hq,
      looseBST_buildTree dim asc _ htake, looseBST_buildTree dim asc _ hdrop⟩
termination_by ps.length
decreasing_by
  · simp [List.length_take]; omega
  · simp [List.length_drop]; omega

/-- The full-dimension membership test, read as a proposition. -/
theorem isPointInRange_iff (K : Nat) (p low high : Point) :
    isPointInRange K p low high = true ↔ memRange K low high p := by
  simp [isPointInRange, memRange, List.all_eq_true, List.mem_range, not_or, not_lt]

theorem isPointInRange_eq_decide (K : Nat) (p low high : Point) :
    isPointInRange K p low high = decide (memRange K low high p) := by
  by_cases h : memRange K low high p
  · simp [h, (isPointInRange_iff K p low high).mpr h]
  · rw [decide_eq_false h, Bool.eq_false_iff]
    exact fun hc => h ((isPointInRange_iff K p low high).mp hc)

/-- A point whose coordinate-`dim` value is below `low[dim]` fails the
membership test (the pruned side of the first comparison). -/
theorem isPointInRange_false_low (K dim : Nat) (q low high : Point)
    (hdim : dim < K) (hlt : coord q dim < coord low dim) :
    isPointInRange K q low high = false := by
  refine List.all_eq_false.mpr ⟨dim, List.mem_range.mpr hdim, ?_⟩
  simp [hlt]

/-- A point whose coordinate-`dim` value is above `high[dim]` fails the
membership test (the pruned side of the second comparison). -/
theorem isPointInRange_false_high (K dim : Nat) (q low high : Point)
    (hdim : dim < K) (hlt : coord high dim < coord q dim) :
    isPointInRange K q low high = false := by
  refine List.all_eq_false.mpr ⟨dim, List.mem_range.mpr hdim, ?_⟩
  simp [hlt]

/-- Correctness of the pruning traversal on any tree satisfying the
(non-strict) ordering invariant: the emitted points are exactly the
subtree's points that pass the membership test, as a multiset. -/
theorem rangeSearchDim_perm_filter (K dim : Nat) (hdim : dim < K) :
    ∀ (t : Node) (low high : Point), looseBST dim t = true →
      (rangeSearchDim K dim t low high).Perm
        (t.inorder.filter fun q => isPointInRange K q low high) := by
  intro t
  induction t using Node.inductionOn with
  | nil => intro low high _; simp [rangeSearchDim, Node.inorder]
  | node l p a r ihl ihr =>
    intro low high hbst
    simp only [looseBST, Bool.and_eq_true, List.all_eq_true, decide_eq_true_eq] at hbst
    obtain ⟨hleft, hright, hbl, hbr⟩ := hbst
    simp only [rangeSearchDim, Node.inorder, List.filter_append, List.filter_cons]
    by_cases h₁ : coord p dim < coord low dim
    · rw [if_pos h₁]
      have hfl : l.inorder.filter (fun q => isPointInRange K q low high) = [] :=
        List.filter_eq_nil_iff.mpr fun q hq => by
          simp [isPointInRange_false_low K dim q low high hdim
            (lt_of_le_of_lt (hleft q hq) h₁)]
      have hfp : isPointInRange K p low high = false :=
        isPointInRange_false_low K dim p low high hdim h₁
      rw [hfl, hfp]
      simpa using ihr low high hbr
    · rw [if_neg h₁]
      by_cases h₂ : coord high dim < coord p dim
      · rw [if_pos h₂]
        have hfr : r.inorder.filter (fun q => isPointInRange K q low high) = [] :=
          List.filter_eq_nil_iff.mpr fun q hq => by
            simp [isPointInRange_false_high K dim q low high hdim
              (lt_of_lt_of_le h₂ (hright q hq))]
        have hfp : isPointInRange K p low high = false :=
          isPointInRange_false_high K dim p low high hdim h₂
        rw [hfr, hfp]
        simpa using ihl low high hbl
      · rw [if_neg h₂]
        by_cases hp : isPointInRange K p low high
        · rw [if_pos hp, if_pos hp, List.singleton_append]
          refine List.Perm.trans ?_ List.perm_middle.symm
          exact List.Perm.cons p (List.Perm.append (ihl low high hbl) (ihr low high hbr))
        · rw [if_neg hp, if_neg hp, List.nil_append]
          exact List.Perm.append (ihl low high hbl) (ihr low high hbr)

theorem sortByCoord_perm (dim : Nat) (ps : List Point) :
    (sortByCoord dim ps).Perm ps :=
  List.perm_insertionSort (leCoord dim) ps

theorem sortByCoord_pairwise (dim : Nat) (ps : List Point) :
    List.Pairwise (leCoord dim) (sortByCoord dim ps) :=
  List.sorted_insertionSort (leCoord dim) ps

/-- Which coordinate each template instance sorts and compares by: the
generic template uses its recorded `dim`; the `K = 1` specialization
always uses coordinate 0. -/
theorem inorder_construct (K dim : Nat) (ps : List Point) :
    (construct K dim ps).inorder = sortByCoord (if K = 1 then 0 else dim) ps := by
  match K with
  | 0 => simp [construct, inorder_buildTree]
  | 1 => simp [construct, inorder_buildTree]
  | K + 2 => simp [construct, inorder_buildTree]

theorem looseBST_construct (K dim : Nat) (ps : List Point) :
    looseBST (if K = 1 then 0 else dim) (construct K dim ps) = true := by
  match K with
  | 0 => simpa [construct] using looseBST_buildTree dim _ _ (sortByCoord_pairwise dim ps)
  | 1 => simpa [construct] using looseBST_buildTree 0 _ _ (sortByCoord_pairwise 0 ps)
  | K + 2 => simpa [construct] using looseBST_buildTree dim _ _ (sortByCoord_pairwise dim ps)

theorem construct_nil (K dim : Nat) : construct K dim [] = Node.nil := by
  match K with
  | 0 => rfl
  | 1 => rfl
  | K + 2 => rfl

/-- Construction throws (returns `none`) exactly when some input point is
shorter than `K`. -/
theorem new_eq_none_iff (K dim : Nat) (ps : List Point) :
    new K ps dim = none ↔ ∃ p ∈ ps, p.length < K := by
  unfold new
  by_cases h : ps = []
  · subst h; simp
  · rw [if_neg h]
    by_cases ha : ps.any (fun p => decide (p.length < K)) = true
    · rw [if_pos ha]
      simp only [List.any_eq_true, decide_eq_true_eq] at ha
      exact iff_of_true rfl ha
    · rw [if_neg ha]
      simp only [List.any_eq_true, decide_eq_true_eq] at ha
      exact iff_of_false (by simp) ha

/-- Whenever construction succeeds, the resulting root is `construct`. -/
theorem new_eq_some (K dim : Nat) (ps : List Point) (t : Node)
    (h : new K ps dim = some t) : t = construct K dim ps := by
  unfold new at h
  by_cases he : ps = []
  · subst he
    have h' : some Node.nil = some t := by simpa using h
    obtain rfl : Node.nil = t := Option.some.inj h'
    rw [construct_nil]
  · rw [if_neg he] at h
    by_cases ha : ps.any (fun p => decide (p.length < K)) = true
    · rw [if_pos ha] at h
      exact absurd h (by simp)
    · rw [if_neg ha] at h
      exact (Option.some.inj h).symm

/-- Construction succeeds on a valid point set. -/
theorem new_eq_some_of_valid (K dim : Nat) (ps : List Point)
    (h : ∀ p ∈ ps, K ≤ p.length) : new K ps dim = some (construct K dim ps) := by
  unfold new
  by_cases he : ps = []
  · subst he; rw [if_pos rfl, construct_nil]
  · rw [if_neg he, if_neg ?_]
    simp only [List.any_eq_true, decide_eq_true_eq]
    rintro ⟨p, hp, hlt⟩
    exact absurd (h p hp) (by omega)

/-- The heart of the functional-correctness claims: a top-level query
(`dim = 0`) over a tree built from `P` emits, as a multiset, exactly the
points of `P` passing the membership test. -/
theorem rangeSearchDim_construct_perm (K : Nat) (hK : 0 < K) (P : List Point)
    (t : Node) (hb : new K P 0 = some t) (low high : Point) :
    (rangeSearchDim K 0 t low high).Perm
      (P.filter fun q => isPointInRange K q low high) := by
  obtain rfl := new_eq_some K 0 P t hb
  have hbst : looseBST 0 (construct K 0 P) = true := by
    have h := looseBST_construct K 0 P
    rwa [ite_self] at h
  have h1 := rangeSearchDim_perm_filter K 0 hK (construct K 0 P) low high hbst
  have h2 : (construct K 0 P).inorder = sortByCoord 0 P := by
    rw [inorder_construct, ite_self]
  refine h1.trans ?_
  rw [h2]
  exact List.Perm.filter _ (sortByCoord_perm 0 P)

end RangeTree

/-- The 1-D specialization's traversal agrees with the generic traversal
at `K = 1`, `dim = 0`: once both pruning tests on `point[0]` fail, the
one-coordinate membership test is automatically satisfied, so the
unconditional `push_back` of the specialization emits the same points. -/
theorem rangeSearchDim1_eq (t : Node) (low high : Point) :
    RangeTree1.rangeSearchDim t (coord low 0) (coord high 0) =
      RangeTree.rangeSearchDim 1 0 t low high := by
  induction t using Node.inductionOn with
  | nil => rfl
  | node l p a r ihl ihr =>
    simp only [RangeTree1.rangeSearchDim, RangeTree.rangeSearchDim]
    by_cases h₁ : coord p 0 < coord low 0
    · rw [if_pos h₁, if_pos h₁, ihr]
    · rw [if_neg h₁, if_neg h₁]
      by_cases h₂ : coord high 0 < coord p 0
      · rw [if_pos h₂, if_pos h₂, ihl]
      · rw [if_neg h₂, if_neg h₂, ihl, ihr]
        have hp : RangeTree.isPointInRange 1 p low high = true := by
          rw [RangeTree.isPointInRange_iff]
          intro i hi
          obtain rfl : i = 0 := by omega
          exact ⟨not_lt.mp h₁, not_lt.mp h₂⟩
        rw [hp]
        simp

/-- The generic traversal emits points in pre-order: whatever is emitted
is a subsequence of the pre-order listing of the tree. -/
theorem rangeSearchDim_sublist_preorder (K dim : Nat) (t : Node) (low high : Point) :
    (RangeTree.rangeSearchDim K dim t low high).Sublist t.preorder := by
  induction t using Node.inductionOn with
  | nil => simp [RangeTree.rangeSearchDim, Node.preorder]
  | node l p a r ihl ihr =>
    simp only [RangeTree.rangeSearchDim, Node.preorder]
    by_cases h₁ : coord p dim < coord low dim
    · rw [if_pos h₁]
      exact (ihr.trans (List.sublist_append_right _ _)).cons p
    · rw [if_neg h₁]
      by_cases h₂ : coord high dim < coord p dim
      · rw [if_pos h₂]
        exact (ihl.trans (List.sublist_append_left _ _)).cons p
      · rw [if_neg h₂]
        by_cases hp : RangeTree.isPointInRange K p low high
        · rw [if_pos hp, List.singleton_append]
          exact (ihl.append ihr).cons₂ p
        · rw [if_neg hp, List.nil_append]
          exact (ihl.append ihr).cons p

/-- The 1-D specialization's traversal also emits in pre-order. -/
theorem rangeSearchDim1_sublist_preorder (t : Node) (low high : Int) :
    (RangeTree1.rangeSearchDim t low high).Sublist t.preorder := by
  induction t using Node.inductionOn with
  | nil => simp [RangeTree1.rangeSearchDim, Node.preorder]
  | node l p a r ihl ihr =>
    simp only [RangeTree1.rangeSearchDim, Node.preorder]
    by_cases h₁ : coord p 0 < low
    · rw [if_pos h₁]
      exact (ihr.trans (List.sublist_append_right _ _)).cons p
    · rw [if_neg h₁]
      by_cases h₂ : high < coord p 0
      · rw [if_pos h₂]
        exact (ihl.trans (List.sublist_append_left _ _)).cons p
      · rw [if_neg h₂]
        exact (ihl.append ihr).cons₂ p

/-- Height recurrence of median-split construction: the built tree is
perfectly height-balanced, with height `⌈log2 (n + 1)⌉` over `n` points
(`Nat.clog 2` is the ceiling logarithm). -/
theorem height_buildTree (asc : List Point → Option Node) (ps : List Point) :
    (RangeTree.buildTree asc ps).height = Nat.clog 2 (ps.length + 1) := by
  rw [RangeTree.buildTree_eq]
  by_cases h : ps = []
  · simp [h, Node.height]
  · have hpos : 0 < ps.length := List.length_pos.mpr h
    simp only [if_neg h, Node.height]
    rw [height_buildTree asc (ps.take (ps.length / 2)),
      height_buildTree asc (ps.drop (ps.length / 2 + 1))]
    simp only [List.length_take, List.length_drop]
    have hmin : min (ps.length / 2) ps.length = ps.length / 2 := by omega
    rw [hmin]
    have hmono : Nat.clog 2 (ps.length - (ps.length / 2 + 1) + 1) ≤
        Nat.clog 2 (ps.length / 2 + 1) :=
      Nat.clog_mono_right 2 (by omega)
    rw [max_eq_left hmono,
      Nat.clog_of_two_le (b := 2) (n := ps.length + 1) (by norm_num) (by omega)]
    congr 2
    omega
termination_by ps.length
decreasing_by
  · simp [List.length_take]; omega
  · simp [List.length_drop]; omega

theorem sortByCoord_length (dim : Nat) (ps : List Point) :
    (sortByCoord dim ps).length = ps.length :=
  List.length_insertionSort (leCoord dim) ps

/-- Truncating a point to its first `K` coordinates leaves every
coordinate below `K` unchanged. -/
theorem coord_take (l : Point) (K i : Nat) (hi : i < K) :
    coord (l.take K) i = coord l i := by
  unfold coord
  rw [List.getD_eq_getElem?_getD, List.getD_eq_getElem?_getD, List.getElem?_take,
    if_pos hi]

/-- The membership test reads only the first `K` coordinates of each of
its three arguments. -/
theorem isPointInRange_congr (K : Nat) (p p' low low' high high' : Point)
    (hp : ∀ i < K, coord p i = coord p' i) (hl : ∀ i < K, coord low i = coord low' i)
    (hh : ∀ i < K, coord high i = coord high' i) :
    RangeTree.isPointInRange K p low high =
      RangeTree.isPointInRange K p' low' high' := by
  rw [RangeTree.isPointInRange_eq_decide, RangeTree.isPointInRange_eq_decide,
    decide_eq_decide]
  unfold memRange
  constructor <;> intro h i hi
  · rw [← hl i hi, ← hp i hi, ← hh i hi]
    exact h i hi
  · rw [hl i hi, hp i hi, hh i hi]
    exact h i hi

/-- The whole traversal reads only the first `K` coordinates of the
bounds (the pruning coordinate `dim` is among them). -/
theorem rangeSearchDim_take (K dim : Nat) (hdim : dim < K) (t : Node) (low high : Point) :
    RangeTree.rangeSearchDim K dim t low high =
      RangeTree.rangeSearchDim K dim t (low.take K) (high.take K) := by
  induction t using Node.inductionOn with
  | nil => rfl
  | node l p a r ihl ihr =>
    have hip : RangeTree.isPointInRange K p low high =
        RangeTree.isPointInRange K p (low.take K) (high.take K) :=
      isPointInRange_congr K p p low (low.take K) high (high.take K)
        (fun _ _ => rfl) (fun i hi => (coord_take low K i hi).symm)
        (fun i hi => (coord_take high K i hi).symm)
    simp only [RangeTree.rangeSearchDim, coord_take low K dim hdim,
      coord_take high K dim hdim, ← hip, ihl, ihr]

/-- If no point at all can pass the membership test (e.g. inverted
bounds), the traversal emits nothing, whatever the tree. -/
theorem rangeSearchDim_nil_of_false (K dim : Nat) (t : Node) (low high : Point)
    (hfalse : ∀ q, RangeTree.isPointInRange K q low high = false) :
    RangeTree.rangeSearchDim K dim t low high = [] := by
  induction t using Node.inductionOn with
  | nil => rfl
  | node l p a r ihl ihr =>
    simp only [RangeTree.rangeSearchDim, hfalse p, ihl, ihr]
    split
    · rfl
    · split <;> rfl

/-! ### The claims -/

/-- **C1.**  For every tree built from a valid point set `P` (each point
of length ≥ K) and every pair of bounds `low`, `high` of length ≥ K with
`low ≤ high` component-wise on the first K coordinates,
`rangeSearch(low, high)` returns exactly the multiset of points of `P`
whose first K coordinates lie within `[low, high]` inclusive on every
axis: no omissions, no extras, and duplicate points of `P` appear the
same number of times in the result. -/
theorem rangeSearch_exact_multiset (K : Nat) (hK : 0 < K) (P : List Point)
    (_hP : ∀ p ∈ P, K ≤ p.length) (t : Node) (hb : RangeTree.new K P 0 = some t)
    (low high : Point) (hlow : K ≤ low.length) (hhigh : K ≤ high.length)
    (_hle : ∀ i < K, coord low i ≤ coord high i) :
    ∃ res, RangeTree.rangeSearch K 0 t low high = some res ∧
      res.Perm (P.filter fun q => decide (memRange K low high q)) := by
  refine ⟨RangeTree.rangeSearchDim K 0 t low high, ?_, ?_⟩
  · unfold RangeTree.rangeSearch
    rw [if_neg (by omega)]
  · have h := RangeTree.rangeSearchDim_construct_perm K hK P t hb low high
    have hfe : (P.filter fun q => RangeTree.isPointInRange K q low high) =
        P.filter fun q => decide (memRange K low high q) :=
      List.filter_congr fun q _ => RangeTree.isPointInRange_eq_decide K q low high
    rw [← hfe]
    exact h

/-- Witness for C1: the specification's first concrete scenario. -/
theorem rangeSearch_exact_multiset_witness :
    ∃ res,
      RangeTree.rangeSearch 2 0
          (RangeTree.construct 2 0 [[3, 6], [17, 15], [13, 15], [6, 12], [9, 1]])
          [5, 5] [15, 15] = some res ∧
        res.Perm ([[3, 6], [17, 15], [13, 15], [6, 12], [9, 1]].filter
          fun q => decide (memRange 2 [5, 5] [15, 15] q)) :=
  rangeSearch_exact_multiset 2 (by decide)
    [[3, 6], [17, 15], [13, 15], [6, 12], [9, 1]] (by decide)
    (RangeTree.construct 2 0 [[3, 6], [17, 15], [13, 15], [6, 12], [9, 1]]) rfl
    [5, 5] [15, 15] (by decide) (by decide) (by decide)

/-- **C2.**  For every tree built from a valid point set `P` and every
point `p` of length ≥ K: `search(p)` returns true if and only if some
point of `P` agrees with `p` on the first K coordinates, and `search(p)`
is true exactly when `rangeSearch(p, p)` is non-empty. -/
theorem search_iff_present (K : Nat) (hK : 0 < K) (P : List Point)
    (t : Node) (hb : RangeTree.new K P 0 = some t) (p : Point) (hp : K ≤ p.length) :
    RangeTree.search K 0 t p =
        some (decide (∃ q ∈ P, ∀ i < K, coord q i = coord p i)) ∧
      (RangeTree.search K 0 t p = some true ↔
        ∃ res, RangeTree.rangeSearch K 0 t p p = some res ∧ res ≠ []) := by
  have hRS : RangeTree.rangeSearch K 0 t p p =
      some (RangeTree.rangeSearchDim K 0 t p p) := by
    unfold RangeTree.rangeSearch
    rw [if_neg (by omega)]
  have hsearch : RangeTree.search K 0 t p =
      some (!(RangeTree.rangeSearchDim K 0 t p p).isEmpty) := by
    unfold RangeTree.search
    rw [if_neg (by omega), hRS]
    rfl
  have hmem : ∀ q, RangeTree.isPointInRange K q p p = true ↔
      ∀ i < K, coord q i = coord p i := by
    intro q
    rw [RangeTree.isPointInRange_iff]
    unfold memRange
    constructor
    · intro h i hi
      exact le_antisymm (h i hi).2 (h i hi).1
    · intro h i hi
      rw [h i hi]
      exact ⟨le_refl _, le_refl _⟩
  have hperm := RangeTree.rangeSearchDim_construct_perm K hK P t hb p p
  have hnil : RangeTree.rangeSearchDim K 0 t p p = [] ↔
      ¬∃ q ∈ P, ∀ i < K, coord q i = coord p i := by
    constructor
    · intro h0
      have hfil : (P.filter fun q => RangeTree.isPointInRange K q p p) = [] :=
        ((h0 ▸ hperm).symm.eq_nil)
      rintro ⟨q, hq, hagree⟩
      have := List.filter_eq_nil_iff.mp hfil q hq
      exact this ((hmem q).mpr hagree)
    · intro hnone
      refine (hperm.trans ?_).eq_nil
      rw [List.filter_eq_nil_iff.mpr fun q hq hc => hnone ⟨q, hq, (hmem q).mp hc⟩]
  constructor
  · rw [hsearch]
    by_cases hex : ∃ q ∈ P, ∀ i < K, coord q i = coord p i
    · rw [decide_eq_true hex]
      have hne : ¬RangeTree.rangeSearchDim K 0 t p p = [] := fun h0 => hnil.mp h0 hex
      have : (RangeTree.rangeSearchDim K 0 t p p).isEmpty = false := by
        rw [Bool.eq_false_iff]
        exact fun hc => hne (List.isEmpty_iff.mp hc)
      rw [this]
      rfl
    · rw [decide_eq_false hex, hnil.mpr hex]
      rfl
  · rw [hsearch]
    constructor
    · intro htrue
      refine ⟨RangeTree.rangeSearchDim K 0 t p p, hRS, ?_⟩
      intro h0
      rw [h0] at htrue
      exact Bool.false_ne_true (Option.some.inj htrue)
    · rintro ⟨res, hres, hne⟩
      obtain rfl : RangeTree.rangeSearchDim K 0 t p p = res :=
        Option.some.inj (hRS.symm.trans hres)
      have : (RangeTree.rangeSearchDim K 0 t p p).isEmpty = false := by
        rw [Bool.eq_false_iff]
        exact fun hc => hne (List.isEmpty_iff.mp hc)
      rw [this]
      rfl

/-- Witness for C2: the specification's 3-D scenario, point present. -/
theorem search_iff_present_witness :
    RangeTree.search 3 0 (RangeTree.construct 3 0 [[3, 6, 2], [15, 5, 10]]) [3, 6, 2] =
        some true ∧
      (RangeTree.search 3 0 (RangeTree.construct 3 0 [[3, 6, 2], [15, 5, 10]]) [3, 6, 2] =
          some true ↔
        ∃ res, RangeTree.rangeSearch 3 0 (RangeTree.construct 3 0 [[3, 6, 2], [15, 5, 10]])
          [3, 6, 2] [3, 6, 2] = some res ∧ res ≠ []) := by
  have h := search_iff_present 3 (by decide) [[3, 6, 2], [15, 5, 10]]
    (RangeTree.construct 3 0 [[3, 6, 2], [15, 5, 10]]) rfl [3, 6, 2] (by decide)
  exact ⟨h.1.trans (by rfl), h.2⟩

/-- **C3 (counterexample).**  Two equal points: after median-split, the
left subtree of the root holds a point whose coordinate-0 value equals
the root's, so the claimed strict inequality on the left subtree fails on
a tree the constructor actually produces. -/
theorem strict_left_invariant_fails :
    RangeTree.new 2 [[0, 0], [0, 0]] 0 =
        some (RangeTree.construct 2 0 [[0, 0], [0, 0]]) ∧
      strictBST 0 (RangeTree.construct 2 0 [[0, 0], [0, 0]]) = false :=
  ⟨rfl, by decide⟩

/-- **C3 (amended).**  For every node of a BST median-split-built from an
array non-decreasing on coordinate `dim`, all points in its left subtree
have coordinate-`dim` value `≤` the node's (strictness fails when equal
keys occur), and all points in its right subtree have coordinate-`dim`
value `≥` the node's; in particular every top-level constructed tree
(`dim = 0`) satisfies this. -/
theorem loose_bst_invariant (K dim : Nat) (asc : List Point → Option Node)
    (ps qs : List Point) (hs : List.Pairwise (leCoord dim) ps) :
    looseBST dim (RangeTree.buildTree asc ps) = true ∧
      looseBST 0 (RangeTree.construct K 0 qs) = true := by
  refine ⟨RangeTree.looseBST_buildTree dim asc ps hs, ?_⟩
  have h := RangeTree.looseBST_construct K 0 qs
  rwa [ite_self] at h

/-- Witness for the amended C3. -/
theorem loose_bst_invariant_witness :
    List.Pairwise (leCoord 0) [[0, 0], [0, 0]] ∧
      (looseBST 0 (RangeTree.buildTree (fun _ => none) [[0, 0], [0, 0]]) = true ∧
        looseBST 0 (RangeTree.construct 2 0 [[5, 5], [10, 10]]) = true) :=
  ⟨by decide,
    loose_bst_invariant 2 0 (fun _ => none) [[0, 0], [0, 0]] [[5, 5], [10, 10]]
      (by decide)⟩

/-- **C4.**  The only error is dimension-mismatch, raised exactly when an
argument is too short: construction fails iff some input point has fewer
than `K` coordinates; `rangeSearch` fails iff a bound is shorter than
`K`; `search` fails iff the point is shorter than `K`; and coordinates
beyond the first `K` are ignored by the predicates and the traversal. -/
theorem dimension_mismatch_exactly (K dim : Nat) (P : List Point)
    (t : Node) (low high p : Point) :
    (RangeTree.new K P dim = none ↔ ∃ q ∈ P, q.length < K) ∧
      (RangeTree.rangeSearch K dim t low high = none ↔
        low.length < K ∨ high.length < K) ∧
      (RangeTree.search K dim t p = none ↔ p.length < K) ∧
      (dim < K → RangeTree.rangeSearchDim K dim t low high =
        RangeTree.rangeSearchDim K dim t (low.take K) (high.take K)) ∧
      RangeTree.isPointInRange K p low high =
        RangeTree.isPointInRange K (p.take K) (low.take K) (high.take K) := by
  refine ⟨RangeTree.new_eq_none_iff K dim P, ?_, ?_,
    fun hdim => rangeSearchDim_take K dim hdim t low high,
    isPointInRange_congr K p (p.take K) low (low.take K) high (high.take K)
      (fun i hi => (coord_take p K i hi).symm)
      (fun i hi => (coord_take low K i hi).symm)
      (fun i hi => (coord_take high K i hi).symm)⟩
  · unfold RangeTree.rangeSearch
    by_cases hc : low.length < K ∨ high.length < K
    · rw [if_pos hc]
      exact iff_of_true rfl hc
    · rw [if_neg hc]
      exact iff_of_false (by simp) hc
  · unfold RangeTree.search
    by_cases hc : p.length < K
    · rw [if_pos hc]
      exact iff_of_true rfl hc
    · rw [if_neg hc]
      refine iff_of_false ?_ hc
      unfold RangeTree.rangeSearch
      rw [if_neg (by omega)]
      simp

/-- Witness for C4: the specification's short-point construction scenario
and a query with extra coordinates. -/
theorem dimension_mismatch_exactly_witness :
    RangeTree.new 2 [[3, 6], [17, 15], [13]] 0 = none ∧
      RangeTree.rangeSearchDim 2 0 Node.nil [1, 2, 9] [3, 4] =
        RangeTree.rangeSearchDim 2 0 Node.nil ([1, 2, 9].take 2) ([3, 4].take 2) :=
  ⟨(dimension_mismatch_exactly 2 0 [[3, 6], [17, 15], [13]] Node.nil
        [1, 2, 9] [3, 4] []).1.mpr ⟨[13], by decide, by decide⟩,
    (dimension_mismatch_exactly 2 0 [[3, 6], [17, 15], [13]] Node.nil
        [1, 2, 9] [3, 4] []).2.2.2.1 (by decide)⟩

/-- **C5.**  On a tree built from a valid point set, bounds of length ≥ K
that are inverted on some axis `i < K` make `rangeSearch` return the
empty sequence — not an error. -/
theorem rangeSearch_inverted_bounds_empty (K : Nat) (P : List Point) (t : Node)
    (_hb : RangeTree.new K P 0 = some t) (low high : Point)
    (hlow : K ≤ low.length) (hhigh : K ≤ high.length)
    (i : Nat) (hi : i < K) (hinv : coord high i < coord low i) :
    RangeTree.rangeSearch K 0 t low high = some [] := by
  have hfalse : ∀ q, RangeTree.isPointInRange K q low high = false := by
    intro q
    rw [Bool.eq_false_iff]
    intro hc
    have h := (RangeTree.isPointInRange_iff K q low high).mp hc i hi
    omega
  unfold RangeTree.rangeSearch
  rw [if_neg (by omega), rangeSearchDim_nil_of_false K 0 t low high hfalse]

/-- Witness for C5: the specification's inverted-query scenario. -/
theorem rangeSearch_inverted_bounds_empty_witness :
    RangeTree.rangeSearch 2 0 (RangeTree.construct 2 0 [[5, 5], [10, 10]])
      [15, 5] [5, 15] = some [] :=
  rangeSearch_inverted_bounds_empty 2 [[5, 5], [10, 10]]
    (RangeTree.construct 2 0 [[5, 5], [10, 10]]) rfl [15, 5] [5, 15]
    (by decide) (by decide) 0 (by decide) (by decide)

/-- **C6.**  For every point list of size `n`, the BST built by
median-split construction has height exactly `⌈log2 (n + 1)⌉`
(`Nat.clog 2 (n + 1)`), whatever the level; the same holds for every
constructed tree instance. -/
theorem height_eq_ceil_log2 (asc : List Point → Option Node) (K dim : Nat)
    (ps : List Point) :
    (RangeTree.buildTree asc ps).height = Nat.clog 2 (ps.length + 1) ∧
      (RangeTree.construct K dim ps).height = Nat.clog 2 (ps.length + 1) := by
  refine ⟨height_buildTree asc ps, ?_⟩
  match K with
  | 0 =>
    simp only [RangeTree.construct]
    rw [height_buildTree, sortByCoord_length]
  | 1 =>
    simp only [RangeTree.construct]
    rw [height_buildTree, sortByCoord_length]
  | K + 2 =>
    simp only [RangeTree.construct]
    rw [height_buildTree, sortByCoord_length]

/-- **C7 (counterexample).**  A reachable nested instance — the
`next_level_tree` of the root of a 2-D tree, which is a `RangeTree<T, 1>`
recording `dimension = 1` — is not sorted by its recorded coordinate 1:
its in-order listing is the input sorted by coordinate 0. -/
theorem base_case_ignores_recorded_dim :
    (RangeTree.construct 2 0 [[0, 1], [1, 0]]).assocRoot =
        some (RangeTree.construct 1 1 [[0, 1], [1, 0]]) ∧
      (RangeTree.construct 1 1 [[0, 1], [1, 0]]).inorder ≠
        sortByCoord 1 [[0, 1], [1, 0]] ∧
      (RangeTree.construct 1 1 [[0, 1], [1, 0]]).inorder =
        sortByCoord 0 [[0, 1], [1, 0]] :=
  ⟨rfl, by decide, rfl⟩

/-- **C7 (amended).**  Every tree instance records a fixed coordinate
index at construction; a generic (`K ≠ 1`) instance sorts its points by
its recorded coordinate `dim` for its own level, while the 1-D base case
always sorts by coordinate 0, ignoring its recorded index.  Node
comparisons during queries use the same coordinate: the base case's
traversal coincides with the generic traversal at coordinate 0. -/
theorem construct_sorts_by_effective_coordinate (K dim : Nat) (ps : List Point)
    (t : Node) (low high : Point) :
    (RangeTree.construct K dim ps).inorder =
        sortByCoord (if K = 1 then 0 else dim) ps ∧
      List.Pairwise (leCoord (if K = 1 then 0 else dim))
        (RangeTree.construct K dim ps).inorder ∧
      RangeTree1.rangeSearchDim t (coord low 0) (coord high 0) =
        RangeTree.rangeSearchDim 1 0 t low high := by
  refine ⟨RangeTree.inorder_construct K dim ps, ?_, rangeSearchDim1_eq t low high⟩
  rw [RangeTree.inorder_construct K dim ps]
  exact RangeTree.sortByCoord_pairwise _ ps

/-- **C8 (counterexample).**  "On a tree built from an empty point set,
every query returns empty/false, never an error" fails as stated:
argument-length validation still raises on such a tree. -/
theorem emptySet_query_error_exists :
    RangeTree.new 1 [] 0 = some Node.nil ∧
      RangeTree.rangeSearch 1 0 Node.nil [] [] = none :=
  ⟨rfl, rfl⟩

/-- **C8 (amended).**  Building from an empty point set succeeds and
yields a tree with no root, and on it every query whose arguments have
length ≥ K returns an empty sequence (`rangeSearch`) or false
(`search`), never an error. -/
theorem emptySet_tree_queries (K dim : Nat) (low high p : Point) :
    RangeTree.new K [] dim = some Node.nil ∧
      (K ≤ low.length → K ≤ high.length →
        RangeTree.rangeSearch K dim Node.nil low high = some []) ∧
      (K ≤ p.length → RangeTree.search K dim Node.nil p = some false) := by
  refine ⟨?_, fun h1 h2 => ?_, fun h1 => ?_⟩
  · unfold RangeTree.new
    rw [if_pos rfl]
  · unfold RangeTree.rangeSearch
    rw [if_neg (by omega)]
    rfl
  · unfold RangeTree.search RangeTree.rangeSearch
    rw [if_neg (by omega), if_neg (by omega)]
    rfl

/-- Witness for the amended C8. -/
theorem emptySet_tree_queries_witness :
    RangeTree.new 2 [] 0 = some Node.nil ∧
      RangeTree.rangeSearch 2 0 Node.nil [0, 0] [9, 9] = some [] ∧
      RangeTree.search 2 0 Node.nil [1, 2] = some false := by
  obtain ⟨h1, h2, h3⟩ := emptySet_tree_queries 2 0 [0, 0] [9, 9] [1, 2]
  exact ⟨h1, h2 (by decide) (by decide), h3 (by decide)⟩

/-- **C9.**  `rangeSearch` emits qualifying points in the pre-order of
the pruning traversal: every emitted sequence (generic template and 1-D
specialization alike) is a subsequence of the tree's pre-order point
listing, so a visited node's own point precedes any point of its
subtrees, and left-subtree points precede right-subtree points. -/
theorem rangeSearch_emits_in_preorder (K dim : Nat) (t : Node)
    (low high : Point) (lo hi : Int) :
    (RangeTree.rangeSearchDim K dim t low high).Sublist t.preorder ∧
      (RangeTree1.rangeSearchDim t lo hi).Sublist t.preorder :=
  ⟨rangeSearchDim_sublist_preorder K dim t low high,
    rangeSearchDim1_sublist_preorder t lo hi⟩

/-- **C10.**  Validation precedes the empty-tree check: on the tree built
from an empty point set (no root), too-short arguments still raise the
dimension-mismatch error from `rangeSearch` and `search`, in both the
generic template and the 1-D specialization. -/
theorem validation_precedes_empty_tree_check (K : Nat) (low high p : Point) :
    RangeTree.new K [] 0 = some Node.nil ∧
      (low.length < K ∨ high.length < K →
        RangeTree.rangeSearch K 0 Node.nil low high = none) ∧
      (p.length < K → RangeTree.search K 0 Node.nil p = none) ∧
      (low.length < 1 ∨ high.length < 1 →
        RangeTree1.rangeSearch Node.nil low high = none) ∧
      (p.length < 1 → RangeTree1.search Node.nil p = none) := by
  refine ⟨?_, fun hc => ?_, fun hc => ?_, fun hc => ?_, fun hc => ?_⟩
  · unfold RangeTree.new
    rw [if_pos rfl]
  · unfold RangeTree.rangeSearch
    rw [if_pos hc]
  · unfold RangeTree.search
    rw [if_pos hc]
  · unfold RangeTree1.rangeSearch
    rw [if_pos hc]
  · unfold RangeTree1.search
    rw [if_pos hc]

/-- Witness for C10. -/
theorem validation_precedes_empty_tree_check_witness :
    RangeTree.new 2 [] 0 = some Node.nil ∧
      RangeTree.rangeSearch 2 0 Node.nil [1] [1, 2] = none ∧
      RangeTree.search 2 0 Node.nil [7] = none ∧
      RangeTree1.rangeSearch Node.nil [] [0] = none ∧
      RangeTree1.search Node.nil [] = none := by
  obtain ⟨h1, h2, h3, -, -⟩ := validation_precedes_empty_tree_check 2 [1] [1, 2] [7]
  obtain ⟨-, -, -, h4, h5⟩ := validation_precedes_empty_tree_check 2 [] [0] []
  exact ⟨h1, h2 (by decide), h3 (by decide), h4 (by decide), h5 (by decide)⟩
